import Mathlib

/-!
Verification development for the TerraGuard telemetry pipeline.

The embedding models JavaScript numbers as exact rationals (ℚ).  The one
transcendental builtin, Math.exp, has no exact rational form, so every
definition that reaches the sigmoid is parametrised by the exponential map
`e : ℚ → ℚ`; theorems quantify over it (with the properties of the real
exponential they need, e.g. `e 0 = 1`) and concrete witnesses instantiate it
with a rational stand-in.  A JavaScript number that may be NaN (the result of
parseFloat) is modelled as `Option ℚ`, `none` standing for NaN.
-/

/- The core rational operations are irreducible by default, which blocks
kernel evaluation of concrete rational facts; restore the default
transparency for this file so that `decide` can settle them. -/
attribute [local semireducible] Rat.add Rat.mul Rat.inv Rat.sub Rat.ofScientific

namespace TerraGuard

/-- Clamp to the unit interval, as the source idiom Math.max(0, Math.min(1, x)). -/
def clamp01 (x : ℚ) : ℚ := max 0 (min 1 x)

/-- ReLU activation: Math.max(0, x). -/
def relu (x : ℚ) : ℚ := max 0 x

/-- Sigmoid with the source's ±500 argument clamp:
1 / (1 + Math.exp(-Math.max(-500, Math.min(500, x)))), with Math.exp passed as `e`. -/
def sigmoid (e : ℚ → ℚ) (x : ℚ) : ℚ := 1 / (1 + e (-(max (-500) (min 500 x))))

/-- One dense layer of the exported model: weights W[n_in][n_out], biases b[n_out]. -/
structure MLLayer where
  weights : List (List ℚ)
  biases : List ℚ
deriving DecidableEq

/-- The parts of the loaded model descriptor that the embedded operations read:
the layer list and the two classification thresholds.  The remaining descriptor
fields (version string, training statistics, feature names) are opaque metadata
passed through unchanged and are omitted here. -/
structure MLModelMeta where
  layers : List MLLayer
  low_medium : ℚ
  medium_high : ℚ
deriving DecidableEq

/-- Matrix-vector multiply from the source: out[j] = b[j] + Σ_i x[i]·W[i][j],
with j ranging over W[0].length and i over x.length. -/
def linearLayer (x : List ℚ) (W : List (List ℚ)) (b : List ℚ) : List ℚ :=
  (List.range (W.headD []).length).map (fun j =>
    b.getD j 0 + ((List.range x.length).map (fun i => x.getD i 0 * ((W.getD i []).getD j 0))).sum)

/-- The layer loop of forwardPass: ReLU after every layer except the last,
sigmoid after the last. -/
def forwardLayers (e : ℚ → ℚ) : List MLLayer → List ℚ → List ℚ
  | [], a => a
  | [l], a => (linearLayer a l.weights l.biases).map (sigmoid e)
  | l :: l2 :: ls, a => forwardLayers e (l2 :: ls) ((linearLayer a l.weights l.biases).map relu)

/-- forwardPass: run the layers in declared order and return a[0]. -/
def forwardPass (e : ℚ → ℚ) (m : MLModelMeta) (inputs : List ℚ) : ℚ :=
  (forwardLayers e m.layers inputs).getD 0 0

/-- Finite-difference partial derivative in the first feature, step 1e-4. -/
def gradMn (e : ℚ → ℚ) (m : MLModelMeta) (Mn Tn Vn : ℚ) : ℚ :=
  (forwardPass e m [Mn + 1/10000, Tn, Vn] - forwardPass e m [Mn, Tn, Vn]) / (1/10000)

/-- Finite-difference partial derivative in the second feature, step 1e-4. -/
def gradTn (e : ℚ → ℚ) (m : MLModelMeta) (Mn Tn Vn : ℚ) : ℚ :=
  (forwardPass e m [Mn, Tn + 1/10000, Vn] - forwardPass e m [Mn, Tn, Vn]) / (1/10000)

/-- Finite-difference partial derivative in the third feature, step 1e-4. -/
def gradVn (e : ℚ → ℚ) (m : MLModelMeta) (Mn Tn Vn : ℚ) : ℚ :=
  (forwardPass e m [Mn, Tn, Vn + 1/10000] - forwardPass e m [Mn, Tn, Vn]) / (1/10000)

/-- The signed input-times-gradient total S = Mn·dMn + Tn·dTn + Vn·dVn. -/
def attrSum (e : ℚ → ℚ) (m : MLModelMeta) (Mn Tn Vn : ℚ) : ℚ :=
  Mn * gradMn e m Mn Tn Vn + Tn * gradTn e m Mn Tn Vn + Vn * gradVn e m Mn Tn Vn

/-- Per-feature attribution triple. -/
structure Contributions where
  moisture : ℚ
  tilt : ℚ
  vibration : ℚ
deriving DecidableEq

/-- computeContributions from the source: primary branch when the signed total
exceeds 1e-6, gradient-magnitude fallback otherwise, all-zero when the total
gradient magnitude is below 1e-8. -/
def computeContributions (e : ℚ → ℚ) (m : MLModelMeta) (Mn Tn Vn : ℚ) : Contributions :=
  let dMn := gradMn e m Mn Tn Vn
  let dTn := gradTn e m Mn Tn Vn
  let dVn := gradVn e m Mn Tn Vn
  let attrMn := Mn * dMn
  let attrTn := Tn * dTn
  let attrVn := Vn * dVn
  let totalWeighted := attrMn + attrTn + attrVn
  if totalWeighted > 1/1000000 then
    ⟨clamp01 (attrMn / totalWeighted), clamp01 (attrTn / totalWeighted),
      clamp01 (attrVn / totalWeighted)⟩
  else
    let totalGrad := |dMn| + |dTn| + |dVn|
    if totalGrad < 1/100000000 then ⟨0, 0, 0⟩
    else ⟨clamp01 (|dMn| / totalGrad), clamp01 (|dTn| / totalGrad), clamp01 (|dVn| / totalGrad)⟩

/-- Modelled from the spec: the attribution function as the specification words
it — the primary product/S branch is taken whenever the sum of the three signed
products exceeds 1e-6 in MAGNITUDE (|S| > 1e-6), the fallback otherwise.  Kept
separate so it can be compared against the source's `computeContributions`,
which tests the signed value S > 1e-6 instead. -/
def specContributions (e : ℚ → ℚ) (m : MLModelMeta) (Mn Tn Vn : ℚ) : Contributions :=
  let dMn := gradMn e m Mn Tn Vn
  let dTn := gradTn e m Mn Tn Vn
  let dVn := gradVn e m Mn Tn Vn
  let attrMn := Mn * dMn
  let attrTn := Tn * dTn
  let attrVn := Vn * dVn
  let totalWeighted := attrMn + attrTn + attrVn
  if |totalWeighted| > 1/1000000 then
    ⟨clamp01 (attrMn / totalWeighted), clamp01 (attrTn / totalWeighted),
      clamp01 (attrVn / totalWeighted)⟩
  else
    let totalGrad := |dMn| + |dTn| + |dVn|
    if totalGrad < 1/100000000 then ⟨0, 0, 0⟩
    else ⟨clamp01 (|dMn| / totalGrad), clamp01 (|dTn| / totalGrad), clamp01 (|dVn| / totalGrad)⟩

/-- computeConfidence from the source: boundary-distance confidence with class
boundaries lo = 0.3 and hi = 0.6. -/
def computeConfidence (score : ℚ) : ℚ :=
  let lo : ℚ := 0.3
  let hi : ℚ := 0.6
  if score < lo then 2 * min score (lo - score)
  else if score < hi then
    let mid := (lo + hi) / 2
    1 - |score - mid| / ((hi - lo) / 2)
  else 2 * min (1 - score) (score - hi)

/-- Math.round: round half toward positive infinity. -/
def jsRound (x : ℚ) : ℤ := Int.floor (x + 1/2)

/-- Math.round(x * 10000) / 10000 — round to 4 decimal places. -/
def round4 (x : ℚ) : ℚ := (jsRound (x * 10000) : ℚ) / 10000

/-- Math.round(x * 100) / 100 — round to 2 decimal places. -/
def round2 (x : ℚ) : ℚ := (jsRound (x * 100) : ℚ) / 100

/-- The three risk classes. -/
inductive RiskLevel
  | LOW
  | MEDIUM
  | HIGH
deriving DecidableEq

/-- The Prediction record returned by predictRisk (the opaque metadata
reference is omitted). -/
structure MLPrediction where
  riskScore : ℚ
  riskClass : RiskLevel
  confidence : ℚ
  contributions : Contributions
  linearScore : ℚ
  delta : ℚ
deriving DecidableEq

/-- The Arduino-baseline linear score as computed inside predictRisk:
Math.min(1, 0.40·Mn + 0.35·Tn + 0.25·Vn). -/
def linearRisk (Mn Tn Vn : ℚ) : ℚ := min 1 (0.40 * Mn + 0.35 * Tn + 0.25 * Vn)

/-- predictRisk from the source: forward pass, thresholding against the loaded
descriptor's thresholds, linear baseline, attribution, clamped confidence, and
rounding of every returned numeric field. -/
def predictRisk (e : ℚ → ℚ) (m : MLModelMeta) (Mn Tn Vn : ℚ) : MLPrediction :=
  let riskScore := forwardPass e m [Mn, Tn, Vn]
  let riskClass : RiskLevel :=
    if riskScore ≥ m.medium_high then .HIGH
    else if riskScore ≥ m.low_medium then .MEDIUM
    else .LOW
  let ls := linearRisk Mn Tn Vn
  let contributions := computeContributions e m Mn Tn Vn
  let confidence := clamp01 (computeConfidence riskScore)
  { riskScore := round4 riskScore
    riskClass := riskClass
    confidence := round2 confidence
    contributions := ⟨round2 contributions.moisture, round2 contributions.tilt,
      round2 contributions.vibration⟩
    linearScore := round4 ls
    delta := round4 (riskScore - ls) }

/-- simulateReading's risk computation from the dashboard (the random raw
inputs are parameters here): clamp each normalisation to [0,1], then take the
weighted sum with no further clamp. -/
def simulateRisk (moistureRaw tilt vibrationRaw : ℚ) : ℚ :=
  let Mn := clamp01 ((moistureRaw - 200) / 600)
  let Tn := clamp01 (|tilt| / 45)
  let Vn := clamp01 (vibrationRaw / 1023)
  0.40 * Mn + 0.35 * Tn + 0.25 * Vn

/-- An all-zero dense layer of the given shape. -/
def zeroLayer (nIn nOut : ℕ) : MLLayer :=
  ⟨List.replicate nIn (List.replicate nOut 0), List.replicate nOut 0⟩

/-- The [3, 32, 16, 1] architecture with every weight and bias zero. -/
def zeroModel : MLModelMeta :=
  ⟨[zeroLayer 3 32, zeroLayer 32 16, zeroLayer 16 1], 0.3, 0.6⟩

/-- Rational stand-in for the exponential map, positive and strictly
increasing on (-2, 2) with expPade 0 = 1; used to instantiate witnesses. -/
def expPade (x : ℚ) : ℚ := (2 + x) / (2 - x)

/-- A one-layer model (3 inputs, 1 sigmoid output) with weight column
(-1, 1, 0) and zero bias. -/
def negWeightModel : MLModelMeta := ⟨[⟨[[-1], [1], [0]], [0]⟩], 0.3, 0.6⟩

/-- A one-layer model (3 inputs, 1 sigmoid output) with weight column
(1, -1, 0) and zero bias. -/
def posWeightModel : MLModelMeta := ⟨[⟨[[1], [-1], [0]], [0]⟩], 0.3, 0.6⟩

/-! Helper lemmas. -/

lemma clamp01_nonneg (x : ℚ) : 0 ≤ clamp01 x := le_max_left 0 (min 1 x)

lemma clamp01_le_one (x : ℚ) : clamp01 x ≤ 1 := max_le (by norm_num) (min_le_left 1 x)

lemma round4_abs_le (q : ℚ) : |round4 q - q| ≤ 1/20000 := by
  have h1 : (jsRound (q * 10000) : ℚ) ≤ q * 10000 + 1/2 := by
    unfold jsRound
    exact_mod_cast Int.floor_le (q * 10000 + 1/2)
  have h2 : q * 10000 + 1/2 < (jsRound (q * 10000) : ℚ) + 1 := by
    unfold jsRound
    exact_mod_cast Int.lt_floor_add_one (q * 10000 + 1/2)
  unfold round4
  rw [abs_le]
  constructor <;> linarith

/-! Claim theorems for the inference module. -/

/-- C1 (amended): the product-normalisation branch of computeContributions is
governed by the SIGNED test S > 1e-6, not by the magnitude |S|: whenever the
signed input-times-gradient total S exceeds 1e-6, each returned contribution is
clamp(product_i / S, 0, 1).  (When S ≤ 1e-6 — including S < -1e-6 — the
gradient-magnitude fallback is used instead; see the counterexample.) -/
theorem computeContributions_signed_branch (e : ℚ → ℚ) (m : MLModelMeta) (Mn Tn Vn : ℚ)
    (h : attrSum e m Mn Tn Vn > 1/1000000) :
    computeContributions e m Mn Tn Vn =
      ⟨clamp01 (Mn * gradMn e m Mn Tn Vn / attrSum e m Mn Tn Vn),
       clamp01 (Tn * gradTn e m Mn Tn Vn / attrSum e m Mn Tn Vn),
       clamp01 (Vn * gradVn e m Mn Tn Vn / attrSum e m Mn Tn Vn)⟩ := by
  unfold attrSum at h ⊢
  simp only [computeContributions]
  split
  · rfl
  · rename_i hc
    exact absurd h hc

/-- Witness for C1's amended theorem at a concrete model and input. -/
theorem computeContributions_signed_branch_wit :
    computeContributions expPade posWeightModel 2 1 0 =
      ⟨clamp01 (2 * gradMn expPade posWeightModel 2 1 0 / attrSum expPade posWeightModel 2 1 0),
       clamp01 (1 * gradTn expPade posWeightModel 2 1 0 / attrSum expPade posWeightModel 2 1 0),
       clamp01 (0 * gradVn expPade posWeightModel 2 1 0 / attrSum expPade posWeightModel 2 1 0)⟩ :=
  computeContributions_signed_branch expPade posWeightModel 2 1 0 (by decide)

/-- C1 (counterexample): a model and input where the signed total S is about
-0.25, so |S| > 1e-6, yet the source takes the gradient-magnitude fallback
(result (1/2, 1/2, 0)) instead of the spec's normalised products (1, 0, 0). -/
theorem computeContributions_magnitude_cex :
    |attrSum expPade negWeightModel 2 1 0| > 1/1000000 ∧
    attrSum expPade negWeightModel 2 1 0 < 0 ∧
    computeContributions expPade negWeightModel 2 1 0 = ⟨1/2, 1/2, 0⟩ ∧
    specContributions expPade negWeightModel 2 1 0 = ⟨1, 0, 0⟩ ∧
    computeContributions expPade negWeightModel 2 1 0 ≠
      specContributions expPade negWeightModel 2 1 0 := by decide

/-- C2 (counterexample): predictRisk's linear score is Math.min(1, ·) with no
lower clamp, so for the negative input Mn = -1 it is -0.4, which is negative —
the claimed clamp at 0 does not happen in the code. -/
theorem linearRisk_negative_cex :
    linearRisk (-1) 0 0 = -(2/5) ∧ linearRisk (-1) 0 0 < 0 ∧
    (predictRisk expPade zeroModel (-1) 0 0).linearScore = -(2/5) ∧
    (predictRisk expPade zeroModel (-1) 0 0).linearScore < 0 := by decide

/-- C2 (amended): the linear score is clamped above at 1 only; it never
exceeds 1, and it is nonnegative whenever the inputs are nonnegative (in
particular on the normalised domain [0,1]^3 it lies in [0,1]).  The
dashboard's simulated reading applies no clamp to its weighted sum at all, but
clamps each input, so its risk also lies in [0,1]. -/
theorem linearRisk_bounds (Mn Tn Vn : ℚ) (hM : 0 ≤ Mn) (hT : 0 ≤ Tn) (hV : 0 ≤ Vn) :
    linearRisk Mn Tn Vn ≤ 1 ∧ 0 ≤ linearRisk Mn Tn Vn ∧
    (∀ mr t vr : ℚ, 0 ≤ simulateRisk mr t vr ∧ simulateRisk mr t vr ≤ 1) := by
  refine ⟨min_le_left 1 _, ?_, ?_⟩
  · have h1 : 0 ≤ (0.40:ℚ) * Mn := mul_nonneg (by norm_num) hM
    have h2 : 0 ≤ (0.35:ℚ) * Tn := mul_nonneg (by norm_num) hT
    have h3 : 0 ≤ (0.25:ℚ) * Vn := mul_nonneg (by norm_num) hV
    exact le_min (by norm_num) (by linarith)
  · intro mr t vr
    simp only [simulateRisk]
    have hm1 := clamp01_nonneg ((mr - 200) / 600)
    have hm2 := clamp01_le_one ((mr - 200) / 600)
    have ht1 := clamp01_nonneg (|t| / 45)
    have ht2 := clamp01_le_one (|t| / 45)
    have hv1 := clamp01_nonneg (vr / 1023)
    have hv2 := clamp01_le_one (vr / 1023)
    constructor <;> nlinarith

/-- Witness for C2's amended theorem at a concrete nonnegative input. -/
theorem linearRisk_bounds_wit :
    linearRisk (1/2) (1/2) (1/2) ≤ 1 ∧ 0 ≤ linearRisk (1/2) (1/2) (1/2) ∧
    (∀ mr t vr : ℚ, 0 ≤ simulateRisk mr t vr ∧ simulateRisk mr t vr ≤ 1) :=
  linearRisk_bounds (1/2) (1/2) (1/2) (by norm_num) (by norm_num) (by norm_num)

/-- C7 (confirmed): computeConfidence is 0 at both class boundaries 0.30 and
0.60, and 1 at the MEDIUM midpoint 0.45; the caller's clamp to [0,1] leaves
these values unchanged. -/
theorem confidence_boundary_values :
    computeConfidence 0.3 = 0 ∧ computeConfidence 0.6 = 0 ∧ computeConfidence 0.45 = 1 ∧
    clamp01 (computeConfidence 0.3) = 0 ∧ clamp01 (computeConfidence 0.6) = 0 ∧
    clamp01 (computeConfidence 0.45) = 1 := by decide

/-- C8 (counterexample): on the LOW interval the confidence formula
2·min(score, 0.3 - score) is 0 at score = 0 (not its maximum) and reaches
0.3 > 0.15 at score = 0.15, so the claimed maximum value 0.15 attained only at
score = 0 is wrong on both counts. -/
theorem confidence_low_class_cex :
    computeConfidence 0 = 0 ∧ computeConfidence 0.15 = 0.3 ∧
    0.15 < computeConfidence 0.15 := by decide

/-- C8 (amended): on the LOW interval 0 ≤ score < 0.3 the confidence
2·min(score, 0.3 - score) is at most 0.3, attains 0.3 exactly at
score = 0.15, and never reaches 1. -/
theorem confidence_low_class_max (s : ℚ) (h0 : 0 ≤ s) (h1 : s < 0.3) :
    computeConfidence s ≤ 0.3 ∧ (computeConfidence s = 0.3 ↔ s = 0.15) ∧
    computeConfidence s < 1 := by
  simp only [computeConfidence]
  rw [if_pos h1]
  rcases le_total s (0.3 - s) with hc | hc
  · rw [min_eq_left hc]
    refine ⟨by linarith, ⟨fun h => by linarith, fun h => by rw [h]; norm_num⟩, by linarith⟩
  · rw [min_eq_right hc]
    refine ⟨by linarith, ⟨fun h => by linarith, fun h => by rw [h]; norm_num⟩, by linarith⟩

/-- Witness for C8's amended theorem at score 0.1. -/
theorem confidence_low_class_max_wit :
    computeConfidence 0.1 ≤ 0.3 ∧ (computeConfidence 0.1 = 0.3 ↔ (0.1:ℚ) = 0.15) ∧
    computeConfidence 0.1 < 1 :=
  confidence_low_class_max 0.1 (by norm_num) (by norm_num)

/-- C10 (confirmed): every numeric field predictRisk returns is the rounded
value of the corresponding raw quantity — riskScore, linearScore and delta to
4 decimal places, confidence and the three contributions to 2 decimal places —
and delta is the rounding of (raw riskScore − raw linearScore), taken before
their own rounding; consequently the returned riskScore is within 1/20000 of
the raw forward-pass output. -/
theorem predictRisk_rounding (e : ℚ → ℚ) (m : MLModelMeta) (Mn Tn Vn : ℚ) :
    (predictRisk e m Mn Tn Vn).riskScore = round4 (forwardPass e m [Mn, Tn, Vn]) ∧
    (predictRisk e m Mn Tn Vn).linearScore = round4 (linearRisk Mn Tn Vn) ∧
    (predictRisk e m Mn Tn Vn).delta =
      round4 (forwardPass e m [Mn, Tn, Vn] - linearRisk Mn Tn Vn) ∧
    (predictRisk e m Mn Tn Vn).confidence =
      round2 (clamp01 (computeConfidence (forwardPass e m [Mn, Tn, Vn]))) ∧
    (predictRisk e m Mn Tn Vn).contributions =
      ⟨round2 (computeContributions e m Mn Tn Vn).moisture,
       round2 (computeContributions e m Mn Tn Vn).tilt,
       round2 (computeContributions e m Mn Tn Vn).vibration⟩ ∧
    |(predictRisk e m Mn Tn Vn).riskScore - forwardPass e m [Mn, Tn, Vn]| ≤ 1/20000 := by
  refine ⟨rfl, rfl, rfl, rfl, rfl, ?_⟩
  exact round4_abs_le (forwardPass e m [Mn, Tn, Vn])

lemma getD_replicate {α : Type} (a d : α) (n i : ℕ) :
    (List.replicate n a).getD i d = if i < n then a else d := by
  rw [List.getD_eq_getElem?_getD, List.getElem?_replicate]
  split <;> rfl

lemma getD_getD_zeroW (n m i j : ℕ) :
    ((List.replicate n (List.replicate m (0:ℚ))).getD i []).getD j 0 = 0 := by
  rw [getD_replicate]
  split
  · rw [getD_replicate]
    split <;> rfl
  · simp

lemma map_zero_eq_replicate {β : Type} (l : List β) :
    l.map (fun _ => (0:ℚ)) = List.replicate l.length 0 := by
  induction l with
  | nil => rfl
  | cons a t ih => simp [ih, List.replicate_succ]

lemma linearLayer_zero (x : List ℚ) (n m : ℕ) (hn : n ≠ 0) :
    linearLayer x (List.replicate n (List.replicate m 0)) (List.replicate m 0) =
      List.replicate m 0 := by
  obtain ⟨k, rfl⟩ : ∃ k, n = k + 1 := ⟨n - 1, by omega⟩
  unfold linearLayer
  have hhead : (List.replicate (k+1) (List.replicate m (0:ℚ))).headD [] = List.replicate m 0 := by
    simp [List.replicate_succ]
  rw [hhead, List.length_replicate]
  have hz : ∀ j ∈ List.range m,
      (List.replicate m (0:ℚ)).getD j 0 +
        ((List.range x.length).map
          (fun i => x.getD i 0 *
            ((List.replicate (k+1) (List.replicate m 0)).getD i []).getD j 0)).sum = (0:ℚ) := by
    intro j _
    simp only [getD_getD_zeroW, mul_zero]
    rw [map_zero_eq_replicate]
    simp [List.sum_replicate, getD_replicate]
  rw [List.map_congr_left hz, map_zero_eq_replicate, List.length_range]

lemma relu_zero : relu 0 = 0 := by simp [relu]

/-- C9 (confirmed): with every weight and bias zero in the [3,32,16,1]
architecture, the forward pass returns sigmoid(0) = 1/2 for every input
triple, for any exponential map with e(0) = 1; and on any three-layer
descriptor the forward pass is the declared-order composition of the three
affine layers with ReLU after the first two and sigmoid after the last. -/
theorem forwardPass_spec :
    (∀ e : ℚ → ℚ, e 0 = 1 → ∀ Mn Tn Vn : ℚ,
      forwardPass e zeroModel [Mn, Tn, Vn] = 1/2) ∧
    (∀ (e : ℚ → ℚ) (lo hi : ℚ) (l1 l2 l3 : MLLayer) (x : List ℚ),
      forwardPass e ⟨[l1, l2, l3], lo, hi⟩ x =
        ((linearLayer
            ((linearLayer
                ((linearLayer x l1.weights l1.biases).map relu)
                l2.weights l2.biases).map relu)
            l3.weights l3.biases).map (sigmoid e)).getD 0 0) := by
  constructor
  · intro e he Mn Tn Vn
    unfold forwardPass zeroModel zeroLayer
    simp only [forwardLayers]
    rw [linearLayer_zero [Mn, Tn, Vn] 3 32 (by norm_num)]
    rw [List.map_replicate, relu_zero]
    rw [linearLayer_zero (List.replicate 32 0) 32 16 (by norm_num)]
    rw [List.map_replicate, relu_zero]
    rw [linearLayer_zero (List.replicate 16 0) 16 1 (by norm_num)]
    have h0 : min (500:ℚ) 0 = 0 := min_eq_right (by norm_num)
    have h1 : max (-500:ℚ) 0 = 0 := max_eq_right (by norm_num)
    simp [sigmoid, h0, h1, he]
    norm_num
  · intro e lo hi l1 l2 l3 x
    rfl

/-- Witness for C9 with the rational exponential stand-in and input (7, 8, 9). -/
theorem forwardPass_spec_wit : forwardPass expPade zeroModel [7, 8, 9] = 1/2 :=
  forwardPass_spec.1 expPade (by decide) 7 8 9

/-! The serial-line parser from the dashboard.  Text is modelled as List Char.
The regular expression ARDUINO_REGEX is embedded as a deterministic
left-to-right matcher: every repetition in the pattern is over a character
class disjoint from what follows it, so greedy matching without backtracking
is equivalent to the regex engine's search, and the unanchored match is the
first position at which the pattern matches. -/

/-- ASCII whitespace, the relevant subset of the regex class backslash-s. -/
def isSpaceJS (c : Char) : Bool :=
  c = ' ' || c = '\t' || c = '\n' || c = '\r' || c = '\x0b' || c = '\x0c'

/-- Character class [0-9.] used by the numeric fields. -/
def isDigitDot (c : Char) : Bool := c.isDigit || c = '.'

/-- Word characters of the LEVEL token class. -/
def isWordChar (c : Char) : Bool := c.isAlphanum || c = '_'

/-- Consume an exact literal, returning the rest of the input. -/
def lit : List Char → List Char → Option (List Char)
  | [], s => some s
  | _ :: _, [] => none
  | c :: cs, d :: ds => if d = c then lit cs ds else none

/-- Greedy one-or-more whitespace. -/
def spaces1 : List Char → Option (List Char)
  | [] => none
  | c :: rest => if isSpaceJS c then some (rest.dropWhile isSpaceJS) else none

/-- Greedy capture of one-or-more characters of class [0-9.]. -/
def numTok (s : List Char) : Option (List Char × List Char) :=
  let t := s.takeWhile isDigitDot
  if t.isEmpty then none else some (t, s.dropWhile isDigitDot)

/-- Capture of an optionally minus-signed [0-9.]+ token. -/
def signedNumTok (s : List Char) : Option (List Char × List Char) :=
  match s with
  | '-' :: rest => (numTok rest).map (fun p => ('-' :: p.1, p.2))
  | _ => numTok s

/-- Greedy capture of a one-or-more word-character token. -/
def wordTok (s : List Char) : Option (List Char × List Char) :=
  let t := s.takeWhile isWordChar
  if t.isEmpty then none else some (t, s.dropWhile isWordChar)

/-- The eight capture groups of ARDUINO_REGEX. -/
structure RegexGroups where
  g1 : List Char
  g2 : List Char
  g3 : List Char
  g4 : List Char
  g5 : List Char
  g6 : List Char
  g7 : List Char
  g8 : List Char
deriving DecidableEq

/-- One sensor segment of the pattern:
labelA \s* (-?[0-9.]+) \s+ labelB ([0-9.]+), returning the two captures and
the rest of the input. -/
def sensorSeg (labelA labelB : List Char) (input : List Char) :
    Option (List Char × List Char × List Char) := do
  let s ← lit labelA input
  let (a, s) ← signedNumTok (s.dropWhile isSpaceJS)
  let s ← spaces1 s
  let s ← lit labelB s
  let (b, s) ← numTok s
  pure (a, b, s)

/-- The field separator of the pattern: \s* vertical-bar \s*. -/
def sepBar (s : List Char) : Option (List Char) :=
  (lit ("|".toList) (s.dropWhile isSpaceJS)).map (fun s2 => s2.dropWhile isSpaceJS)

/-- The trailing Risk=([0-9.]+) \s* vertical-bar \s* LEVEL:\s*(word+) part,
returning the two captures. -/
def riskLevelSeg (input : List Char) : Option (List Char × List Char) := do
  let s ← lit ("Risk=".toList) input
  let (g7, s) ← numTok s
  let s ← sepBar s
  let s ← lit ("LEVEL:".toList) s
  let (g8, _) ← wordTok (s.dropWhile isSpaceJS)
  pure (g7, g8)

/-- Match ARDUINO_REGEX at the start of the input:
Moisture: (-?[0-9.]+) Mn=([0-9.]+) | Tilt: (-?[0-9.]+) Tn=([0-9.]+) |
Vibration: (-?[0-9.]+) Vn=([0-9.]+) | Risk=([0-9.]+) | LEVEL: (word+),
with flexible interior whitespace exactly as in the pattern. -/
def matchArduinoAt (input : List Char) : Option RegexGroups := do
  let (g1, g2, s) ← sensorSeg ("Moisture:".toList) ("Mn=".toList) input
  let s ← sepBar s
  let (g3, g4, s) ← sensorSeg ("Tilt:".toList) ("Tn=".toList) s
  let s ← sepBar s
  let (g5, g6, s) ← sensorSeg ("Vibration:".toList) ("Vn=".toList) s
  let s ← sepBar s
  let (g7, g8) ← riskLevelSeg s
  pure ⟨g1, g2, g3, g4, g5, g6, g7, g8⟩

/-- Unanchored regex search: try the pattern at each successive start
position, as String.match does. -/
def regexSearch : List Char → Option RegexGroups
  | [] => none
  | c :: rest =>
    match matchArduinoAt (c :: rest) with
    | some g => some g
    | none => regexSearch rest

/-- Decimal value of a digit string. -/
def digitsVal (ds : List Char) : ℕ := ds.foldl (fun a c => 10 * a + (c.toNat - 48)) 0

/-- parseFloat on an unsigned token: longest prefix of digits, an optional
point, then digits; NaN (none) when no digit is present. -/
def parseUnsignedFloat (s : List Char) : Option ℚ :=
  let ip := s.takeWhile Char.isDigit
  let rest := s.dropWhile Char.isDigit
  match rest with
  | '.' :: rest2 =>
    let fp := rest2.takeWhile Char.isDigit
    if ip.isEmpty && fp.isEmpty then none
    else some ((digitsVal ip : ℚ) + (digitsVal fp : ℚ) / (10 : ℚ) ^ fp.length)
  | _ => if ip.isEmpty then none else some (digitsVal ip)

/-- parseFloat with an optional leading sign; none models NaN. -/
def jsParseFloat (s : List Char) : Option ℚ :=
  match s with
  | '-' :: rest => (parseUnsignedFloat rest).map Neg.neg
  | '+' :: rest => parseUnsignedFloat rest
  | _ => parseUnsignedFloat s

/-- One parsed telemetry sample; numeric fields are Option ℚ with none for
NaN. -/
structure SensorReading where
  moistureRaw : Option ℚ
  tilt : Option ℚ
  vibrationRaw : Option ℚ
  Mn : Option ℚ
  Tn : Option ℚ
  Vn : Option ℚ
  R : Option ℚ
  level : RiskLevel
deriving DecidableEq

/-- String.trim over the modelled whitespace class. -/
def trim (s : List Char) : List Char :=
  ((s.dropWhile isSpaceJS).reverse.dropWhile isSpaceJS).reverse

/-- The level token: trimmed, uppercased, and defaulted to LOW when it is not
one of LOW, MEDIUM, HIGH. -/
def levelOfToken (t : List Char) : RiskLevel :=
  let u := (trim t).map Char.toUpper
  if u = ("LOW".toList) then .LOW
  else if u = ("MEDIUM".toList) then .MEDIUM
  else if u = ("HIGH".toList) then .HIGH
  else .LOW

/-- parseArduinoLine: regex match, then parseFloat on each numeric capture
group; null (none) when the line does not match. -/
def parseArduinoLine (line : List Char) : Option SensorReading :=
  match regexSearch line with
  | none => none
  | some g => some
    { moistureRaw := jsParseFloat g.g1
      Mn := jsParseFloat g.g2
      tilt := jsParseFloat g.g3
      Tn := jsParseFloat g.g4
      vibrationRaw := jsParseFloat g.g5
      Vn := jsParseFloat g.g6
      R := jsParseFloat g.g7
      level := levelOfToken g.g8 }

/-! The reading aggregator (applyReading) and the read loop's per-line
handling. -/

/-- A chart point derived from a reading. -/
structure ChartPoint where
  time : List Char
  Mn : Option ℚ
  Tn : Option ℚ
  Vn : Option ℚ
deriving DecidableEq

/-- An activity-log entry: the reading plus its time label. -/
structure ActivityEntry where
  reading : SensorReading
  time : List Char
deriving DecidableEq

/-- The dashboard state touched by applyReading. -/
structure AggState where
  latest : SensorReading
  lastUpdate : List Char
  chartData : List ChartPoint
  activityLog : List ActivityEntry
deriving DecidableEq

/-- Derive the chart point of a reading. -/
def chartPointOf (t : List Char) (r : SensorReading) : ChartPoint := ⟨t, r.Mn, r.Tn, r.Vn⟩

/-- Derive the activity entry of a reading. -/
def entryOf (t : List Char) (r : SensorReading) : ActivityEntry := ⟨r, t⟩

/-- applyReading: set latest and lastUpdate, append the chart point and keep
the last 60 (slice(-60) when over 60), prepend the log entry and keep the
first 20 (slice(0, 20)). -/
def applyReading (t : List Char) (st : AggState) (r : SensorReading) : AggState :=
  let next := st.chartData ++ [chartPointOf t r]
  { latest := r
    lastUpdate := t
    chartData := if next.length > 60 then next.drop (next.length - 60) else next
    activityLog := (entryOf t r :: st.activityLog).take 20 }

/-- The read loop's handling of one split-off line: trim, skip when empty,
parse, skip when the parse fails, otherwise apply the reading. -/
def processLine (t : List Char) (st : AggState) (rawLine : List Char) : AggState :=
  let line := trim rawLine
  if line.isEmpty then st
  else
    match parseArduinoLine line with
    | none => st
    | some r => applyReading t st r

/-- The read loop's iteration over the complete lines of one chunk. -/
def processLines (t : List Char) (st : AggState) (lines : List (List Char)) : AggState :=
  lines.foldl (processLine t) st

/-- Fold a sequence of (time, reading) pairs through applyReading. -/
def applyAll (st : AggState) (rs : List (List Char × SensorReading)) : AggState :=
  rs.foldl (fun s p => applyReading p.1 s p.2) st

/-- The reading held in dashboard state before any data arrives. -/
def initialReading : SensorReading :=
  ⟨some 0, some 0, some 0, some 0, some 0, some 0, some 0, .LOW⟩

/-- The aggregator state before any data arrives. -/
def initialAgg : AggState := ⟨initialReading, "--:--:--".toList, [], []⟩

/-- The last n elements of a list. -/
def lastN {α : Type} (n : ℕ) (l : List α) : List α := l.drop (l.length - n)

/-! The line assembler of the read loop: buffer ++ chunk is split on the
newline character, the last (possibly incomplete) segment becomes the new
buffer, and the earlier segments are emitted in order. -/

/-- JavaScript String.split on a separator character: every occurrence opens a
new segment and the result is never empty (splitting the empty string gives
one empty segment). -/
def jsSplit (sep : Char) : List Char → List (List Char)
  | [] => [[]]
  | c :: rest =>
    if c = sep then [] :: jsSplit sep rest
    else
      match jsSplit sep rest with
      | [] => [[c]]
      | h :: t => (c :: h) :: t

/-- The last element of a list, with a default: lines.pop() of a nonempty
array combined with the fallback to the empty string. -/
def lastD {α : Type} (d : α) : List α → α
  | [] => d
  | [a] => a
  | _ :: b :: t => lastD d (b :: t)

/-- One iteration of the read loop's buffering: append the chunk to the
pending fragment, split on the newline, emit all but the last segment, keep
the last segment as the new pending fragment. -/
def feedChunk (st : List (List Char) × List Char) (chunk : List Char) :
    List (List Char) × List Char :=
  let lines := jsSplit '\n' (st.2 ++ chunk)
  (st.1 ++ lines.dropLast, lastD [] lines)

/-- Run the assembler over a whole chunk sequence, starting from an empty
buffer: first component is every line emitted, in order; second is the
pending fragment. -/
def assembleChunks (chunks : List (List Char)) : List (List Char) × List Char :=
  chunks.foldl feedChunk ([], [])

/-! Claim theorems for the parser and the read loop. -/

/-- C3 (counterexample): a grammatical line except that Mn carries a leading
minus sign (Mn=-0.50) is NOT parsed: the capture class for Mn (and Tn, Vn,
Risk) has no sign, so the whole match fails and the parser returns none. -/
theorem parseArduino_negative_Mn_cex :
    parseArduinoLine (("Moisture: 612  Mn=-0.50 | Tilt: 12.34  Tn=0.27 | Vibration: 308  Vn=0.30 | Risk=0.45 | LEVEL: MEDIUM").toList) = none := by decide

/-- C3 (amended): only the three raw fields (Moisture, Tilt, Vibration) are
parsed as signed floating point — a leading minus there yields the negative
value — while Mn, Tn, Vn and Risk accept unsigned numerals only, and the
level token is uppercased: the unsigned-slot tokenizer rejects every
minus-led token while the raw-slot tokenizer accepts the minus, and a line
with negative raw readings and a lowercase level parses to exactly the
corresponding Reading. -/
theorem parseArduino_signed_raw_fields :
    (∀ rest : List Char, numTok ('-' :: rest) = none) ∧
    (∀ rest : List Char,
      signedNumTok ('-' :: rest) = (numTok rest).map (fun p => ('-' :: p.1, p.2))) ∧
    parseArduinoLine (("Moisture: -612.5  Mn=0.69 | Tilt: -12.34  Tn=0.27 | Vibration: -3  Vn=0.30 | Risk=0.45 | LEVEL: medium").toList) =
      some ⟨some (-(1225/2)), some (-(617/50)), some (-3), some (69/100), some (27/100),
        some (3/10), some (9/20), RiskLevel.MEDIUM⟩ := by
  refine ⟨?_, fun rest => rfl, by decide⟩
  intro rest
  have hd : isDigitDot '-' = false := by decide
  simp [numTok, List.takeWhile_cons, hd]

/-- C4 (confirmed): a line on which the parser fails is simply skipped by the
read loop — the state is unchanged and processing continues with the
subsequent lines — and concretely a line with missing fields, with wrong
separators, or with a non-numeric value in a numeric slot parses to none
(the parser is a total function, so it never raises), while a grammatical
line whose level token is unrecognized parses to a Reading with level LOW. -/
theorem parse_error_recovery :
    (∀ (t : List Char) (st : AggState) (line : List Char) (rest : List (List Char)),
      parseArduinoLine (trim line) = none →
        processLine t st line = st ∧
        processLines t st (line :: rest) = processLines t st rest) ∧
    parseArduinoLine (("Moisture: 612  Mn=0.69 | Tilt: 12.34  Tn=0.27").toList) = none ∧
    parseArduinoLine (("Moisture: 612; Mn=0.69; Tilt: 12.34; Tn=0.27; Vibration: 308; Vn=0.30; Risk=0.45; LEVEL: LOW").toList) = none ∧
    parseArduinoLine (("Moisture: abc  Mn=0.69 | Tilt: 12.34  Tn=0.27 | Vibration: 308  Vn=0.30 | Risk=0.45 | LEVEL: LOW").toList) = none ∧
    (parseArduinoLine (("Moisture: 612  Mn=0.69 | Tilt: 12.34  Tn=0.27 | Vibration: 308  Vn=0.30 | Risk=0.45 | LEVEL: BANANA").toList)).map SensorReading.level = some RiskLevel.LOW := by
  refine ⟨?_, by decide, by decide, by decide, by decide⟩
  intro t st line rest h
  have hp : processLine t st line = st := by
    simp only [processLine]
    split
    · rfl
    · rw [h]
  exact ⟨hp, by simp [processLines, hp]⟩

/-- Witness for C4's universally quantified part at a concrete malformed
line. -/
theorem parse_error_recovery_wit :
    processLine [] initialAgg (("garbage line").toList) = initialAgg ∧
    processLines [] initialAgg [("garbage line").toList] = processLines [] initialAgg [] :=
  parse_error_recovery.1 [] initialAgg (("garbage line").toList) [] (by decide)

/-! Aggregator lemmas. -/

lemma lastN_length_le {α : Type} (n : ℕ) (l : List α) : (lastN n l).length ≤ n := by
  simp only [lastN, List.length_drop]
  omega

lemma applyReading_chart (t : List Char) (st : AggState) (r : SensorReading)
    (ps : List ChartPoint) (h : st.chartData = lastN 60 ps) :
    (applyReading t st r).chartData = lastN 60 (ps ++ [chartPointOf t r]) := by
  simp only [applyReading]
  rw [h]
  simp only [lastN, List.length_append, List.length_drop, List.length_singleton]
  rcases lt_or_ge ps.length 60 with hc | hc
  · have h0 : ps.length - 60 = 0 := by omega
    have h1 : ps.length + 1 - 60 = 0 := by omega
    rw [if_neg (by simp [h0]; omega)]
    simp [h0, h1]
  · rw [if_pos (by omega)]
    have e1 : ps.length - (ps.length - 60) + 1 - 60 = 1 := by omega
    rw [e1, List.drop_append_eq_append_drop, List.drop_drop]
    have e2 : ps.length - 60 + 1 = ps.length + 1 - 60 := by omega
    have e3 : 1 - (List.drop (ps.length - 60) ps).length = 0 := by
      simp only [List.length_drop]
      omega
    rw [e2, e3, List.drop_append_eq_append_drop]
    have e4 : ps.length + 1 - 60 - ps.length = 0 := by omega
    rw [e4]

lemma applyReading_log (t : List Char) (st : AggState) (r : SensorReading)
    (es : List ActivityEntry) (h : st.activityLog = es.take 20) :
    (applyReading t st r).activityLog = (entryOf t r :: es).take 20 := by
  simp only [applyReading]
  rw [h]
  show (entryOf t r :: es.take 20).take 20 = (entryOf t r :: es).take 20
  rw [show (entryOf t r :: es.take 20).take 20 = entryOf t r :: (es.take 20).take 19 from rfl,
    show (entryOf t r :: es).take 20 = entryOf t r :: es.take 19 from rfl, List.take_take]
  norm_num

lemma applyAll_chart : ∀ (rs : List (List Char × SensorReading)) (st : AggState)
    (ps : List ChartPoint), st.chartData = lastN 60 ps →
    (applyAll st rs).chartData = lastN 60 (ps ++ rs.map (fun p => chartPointOf p.1 p.2))
  | [], st, ps, h => by simpa [applyAll] using h
  | r :: rs, st, ps, h => by
    have h1 := applyReading_chart r.1 st r.2 ps h
    have ih := applyAll_chart rs (applyReading r.1 st r.2) (ps ++ [chartPointOf r.1 r.2]) h1
    simpa [applyAll, List.append_assoc] using ih

lemma applyAll_log : ∀ (rs : List (List Char × SensorReading)) (st : AggState)
    (es : List ActivityEntry), st.activityLog = es.take 20 →
    (applyAll st rs).activityLog =
      ((rs.map (fun p => entryOf p.1 p.2)).reverse ++ es).take 20
  | [], st, es, h => by simpa [applyAll] using h
  | r :: rs, st, es, h => by
    have h1 := applyReading_log r.1 st r.2 es h
    have ih := applyAll_log rs (applyReading r.1 st r.2) (entryOf r.1 r.2 :: es) h1
    simpa [applyAll, List.append_assoc] using ih

/-- C6 (confirmed): applyReading preserves the aggregator invariant — the
chart series holds the last at most 60 points in arrival order with the new
point at the tail, the activity log holds the first at most 20 entries with
the new entry at index 0; folding any reading sequence from the initial state
leaves the chart holding exactly the last 60 derived points and the log the
first 20 newest-first entries, so after 61 appends the chart is the tail of
the 61 points (the first point evicted, the 61st last) at length 60. -/
theorem aggregator_bounded (t : List Char) (st : AggState) (r : SensorReading)
    (rs : List (List Char × SensorReading)) (ps : List ChartPoint) (es : List ActivityEntry)
    (hc : st.chartData = lastN 60 ps) (hl : st.activityLog = es.take 20) :
    (applyReading t st r).chartData.length ≤ 60 ∧
    (applyReading t st r).chartData.getLast? = some (chartPointOf t r) ∧
    (applyReading t st r).activityLog.length ≤ 20 ∧
    (applyReading t st r).activityLog.head? = some (entryOf t r) ∧
    (applyAll initialAgg rs).chartData = lastN 60 (rs.map (fun p => chartPointOf p.1 p.2)) ∧
    (applyAll initialAgg rs).activityLog =
      ((rs.map (fun p => entryOf p.1 p.2)).reverse).take 20 ∧
    (rs.length = 61 →
      (applyAll initialAgg rs).chartData = (rs.map (fun p => chartPointOf p.1 p.2)).tail ∧
      (applyAll initialAgg rs).chartData.length = 60) := by
  have hchart := applyReading_chart t st r ps hc
  have hlog := applyReading_log t st r es hl
  have hall_c := applyAll_chart rs initialAgg [] rfl
  have hall_l := applyAll_log rs initialAgg [] rfl
  simp only [List.nil_append, List.append_nil] at hall_c hall_l
  refine ⟨?_, ?_, ?_, ?_, hall_c, hall_l, ?_⟩
  · rw [hchart]
    exact lastN_length_le 60 _
  · rw [hchart]
    simp only [lastN, List.length_append, List.length_singleton]
    rw [List.drop_append_eq_append_drop]
    have h1 : ps.length + 1 - 60 - ps.length = 0 := by omega
    rw [h1]
    simp
  · rw [hlog]
    simp only [List.length_take]
    omega
  · rw [hlog]
    rfl
  · intro h61
    have hlen : (rs.map (fun p => chartPointOf p.1 p.2)).length = 61 := by
      simp [h61]
    constructor
    · rw [hall_c]
      simp only [lastN, hlen]
      norm_num [List.drop_one]
    · rw [hall_c]
      simp only [lastN, List.length_drop, hlen]

/-- Witness for C6 at the initial state and the empty reading sequence. -/
theorem aggregator_bounded_wit :
    (applyReading [] initialAgg initialReading).chartData.length ≤ 60 ∧
    (applyReading [] initialAgg initialReading).chartData.getLast? =
      some (chartPointOf [] initialReading) ∧
    (applyReading [] initialAgg initialReading).activityLog.length ≤ 20 ∧
    (applyReading [] initialAgg initialReading).activityLog.head? =
      some (entryOf [] initialReading) ∧
    (applyAll initialAgg []).chartData =
      lastN 60 (([] : List (List Char × SensorReading)).map (fun p => chartPointOf p.1 p.2)) ∧
    (applyAll initialAgg []).activityLog =
      ((([] : List (List Char × SensorReading)).map (fun p => entryOf p.1 p.2)).reverse).take 20 ∧
    (([] : List (List Char × SensorReading)).length = 61 →
      (applyAll initialAgg []).chartData =
        (([] : List (List Char × SensorReading)).map (fun p => chartPointOf p.1 p.2)).tail ∧
      (applyAll initialAgg []).chartData.length = 60) :=
  aggregator_bounded [] initialAgg initialReading [] [] [] rfl rfl

/-! Line-assembler lemmas. -/

lemma jsSplit_ne_nil (sep : Char) : ∀ l : List Char, jsSplit sep l ≠ []
  | [] => by simp [jsSplit]
  | c :: rest => by
    simp only [jsSplit]
    split
    · simp
    · split
      · simp
      · simp

lemma jsSplit_cons_sep (sep : Char) (l : List Char) :
    jsSplit sep (sep :: l) = [] :: jsSplit sep l := by
  simp [jsSplit]

lemma jsSplit_cons_ne (sep c : Char) (l : List Char) (h : ¬ c = sep) :
    jsSplit sep (c :: l) = (c :: (jsSplit sep l).headD []) :: (jsSplit sep l).tail := by
  cases hr : jsSplit sep l with
  | nil => exact absurd hr (jsSplit_ne_nil sep l)
  | cons hd tl => simp [jsSplit, h, hr]

lemma dropLast_cons_cons {α : Type} (a b : α) (l : List α) :
    (a :: b :: l).dropLast = a :: (b :: l).dropLast := rfl

lemma lastD_cons_cons {α : Type} (d a b : α) (l : List α) :
    lastD d (a :: b :: l) = lastD d (b :: l) := rfl

lemma lastD_concat {α : Type} (d : α) : ∀ (l : List α) (a : α), lastD d (l ++ [a]) = a
  | [], _ => rfl
  | [_], _ => rfl
  | b :: c :: t, a => by
    have ih := lastD_concat d (c :: t) a
    rw [List.cons_append]
    exact ih

lemma dropLast_append_lastD {α : Type} (d : α) : ∀ l : List α, l ≠ [] →
    l.dropLast ++ [lastD d l] = l
  | [], h => absurd rfl h
  | [_], _ => rfl
  | a :: b :: t, _ => by
    have ih := dropLast_append_lastD d (b :: t) (by simp)
    rw [dropLast_cons_cons, lastD_cons_cons, List.cons_append, ih]

lemma jsSplit_no_sep (sep : Char) : ∀ l : List Char, sep ∉ l → jsSplit sep l = [l]
  | [], _ => by simp [jsSplit]
  | c :: l, h => by
    have hc : ¬ c = sep := by
      intro e
      exact h (by rw [e]; exact List.mem_cons_self sep l)
    have hl : jsSplit sep l = [l] := jsSplit_no_sep sep l (fun m => h (List.mem_cons_of_mem c m))
    rw [jsSplit_cons_ne sep c l hc, hl]
    rfl

lemma sep_not_mem_last (sep : Char) : ∀ l : List Char, sep ∉ lastD [] (jsSplit sep l)
  | [] => by simp [jsSplit, lastD]
  | c :: l => by
    have ih := sep_not_mem_last sep l
    by_cases hcs : c = sep
    · rw [hcs, jsSplit_cons_sep]
      cases hr : jsSplit sep l with
      | nil => exact absurd hr (jsSplit_ne_nil sep l)
      | cons hd tl =>
        rw [hr] at ih
        rw [lastD_cons_cons]
        exact ih
    · rw [jsSplit_cons_ne sep c l hcs]
      cases hr : jsSplit sep l with
      | nil => exact absurd hr (jsSplit_ne_nil sep l)
      | cons hd tl =>
        rw [hr] at ih
        cases tl with
        | nil =>
          simp only [List.headD_cons, List.tail_cons]
          simp only [lastD] at ih ⊢
          simp only [List.mem_cons]
          push_neg
          exact ⟨fun e => hcs e.symm, ih⟩
        | cons x xs =>
          simp only [List.headD_cons, List.tail_cons]
          rw [lastD_cons_cons] at ih
          exact ih

lemma jsSplit_append (sep : Char) : ∀ (a b : List Char),
    jsSplit sep (a ++ b) =
      (jsSplit sep a).dropLast ++
        (lastD [] (jsSplit sep a) ++ (jsSplit sep b).headD []) :: (jsSplit sep b).tail
  | [], b => by
    cases hb : jsSplit sep b with
    | nil => exact absurd hb (jsSplit_ne_nil sep b)
    | cons h t => simp [jsSplit, lastD, hb]
  | c :: a2, b => by
    by_cases hcs : c = sep
    · rw [hcs, List.cons_append, jsSplit_cons_sep, jsSplit_cons_sep, jsSplit_append sep a2 b]
      cases hr : jsSplit sep a2 with
      | nil => exact absurd hr (jsSplit_ne_nil sep a2)
      | cons h t => simp [hr, dropLast_cons_cons, lastD_cons_cons]
    · rw [List.cons_append, jsSplit_cons_ne sep c (a2 ++ b) hcs,
        jsSplit_cons_ne sep c a2 hcs, jsSplit_append sep a2 b]
      cases hr : jsSplit sep a2 with
      | nil => exact absurd hr (jsSplit_ne_nil sep a2)
      | cons h t =>
        cases t with
        | nil => simp [hr, lastD]
        | cons x xs => simp [hr, dropLast_cons_cons, lastD_cons_cons]

lemma feed_invariant (emitted : List (List Char)) (buf s chunk : List Char)
    (hb : '\n' ∉ buf) (he : emitted ++ [buf] = jsSplit '\n' s) :
    (feedChunk (emitted, buf) chunk).1 ++ [(feedChunk (emitted, buf) chunk).2] =
      jsSplit '\n' (s ++ chunk) ∧ '\n' ∉ (feedChunk (emitted, buf) chunk).2 := by
  constructor
  · show (emitted ++ (jsSplit '\n' (buf ++ chunk)).dropLast) ++
      [lastD [] (jsSplit '\n' (buf ++ chunk))] = jsSplit '\n' (s ++ chunk)
    rw [List.append_assoc, dropLast_append_lastD [] _ (jsSplit_ne_nil '\n' (buf ++ chunk))]
    rw [jsSplit_append '\n' buf chunk, jsSplit_no_sep '\n' buf hb]
    rw [jsSplit_append '\n' s chunk, ← he, List.dropLast_concat, lastD_concat]
    simp [lastD]
  · show '\n' ∉ lastD [] (jsSplit '\n' (buf ++ chunk))
    exact sep_not_mem_last '\n' (buf ++ chunk)

lemma assembleChunks_go : ∀ (chunks : List (List Char)) (emitted : List (List Char))
    (buf s : List Char), '\n' ∉ buf → emitted ++ [buf] = jsSplit '\n' s →
    (chunks.foldl feedChunk (emitted, buf)).1 ++
      [(chunks.foldl feedChunk (emitted, buf)).2] = jsSplit '\n' (s ++ chunks.flatten)
  | [], _, _, s, _, he => by simpa using he
  | c :: cs, emitted, buf, s, hb, he => by
    obtain ⟨h1, h2⟩ := feed_invariant emitted buf s c hb he
    have ih := assembleChunks_go cs (feedChunk (emitted, buf) c).1
      (feedChunk (emitted, buf) c).2 (s ++ c) h2 h1
    rw [List.foldl_cons, List.flatten_cons, ← List.append_assoc]
    exact ih

/-- C5 (confirmed): chunking invariance of the line assembler — for every way
of splitting a text stream into chunks (including empty chunks and chunks
without a newline), the emitted lines followed by the final pending fragment
equal the newline-split of the fully concatenated stream; so the emitted
lines are exactly the complete lines of the stream, in order, and the final
possibly-incomplete segment is retained as the pending fragment rather than
emitted. -/
theorem lineAssembly_chunk_invariance (chunks : List (List Char)) :
    (assembleChunks chunks).1 ++ [(assembleChunks chunks).2] =
      jsSplit '\n' chunks.flatten := by
  have h := assembleChunks_go chunks [] [] [] (by simp) (by simp [jsSplit])
  simpa using h

end TerraGuard
